import Mathlib

/-!
Verification of the collector-cache-extension core against its source.

The development shallowly embeds the JavaScript modules of the repository:
lib/utils/hash.js (computeHashes, computeContentHash), lib/utils/sources.js
(resolveSources, resolveDependencySources), lib/utils/fs.js
(checkDirectoryHasFiles, checkOutputsExist, copyDirectory), lib/utils/cache.js
(loadPointerFile, savePointerFile), and the cache-decision and entry-validation
logic of lib/collector-cache-extension.js.

Filesystem state is modelled explicitly: a tree of entries for the directory
walking utilities, and a path-indexed file map for the pointer store.  The
SHA-256 digest and the JSON serializer are external library collaborators
(node crypto and JSON); they are modelled as function parameters, never
interpreted.
-/

namespace CollectorCache

/-- Association-list lookup by key, mirroring JavaScript object / Map access. -/
def findVal {α β : Type} [DecidableEq α] (k : α) : List (α × β) → Option β
  | [] => none
  | (a, b) :: rest => if a = k then some b else findVal k rest

/-! ## lib/utils/hash.js -/

/-- Embedding of computeHashes (hash.js lines 17-53).  The worktree is a map
from relative source path to the file content found there (none when
fs.existsSync is false); sha256hex stands for the node crypto digest.  The
JavaScript loop returns null as soon as one source is missing, otherwise it
records each source path with the digest of its content, in iteration order. -/
def computeHashes (sha256hex : String → String) (worktree : String → Option String) :
    List String → Option (List (String × String))
  | [] => some []
  | source :: rest =>
    match worktree source with
    | none => none
    | some content =>
      match computeHashes sha256hex worktree rest with
      | none => none
      | some m => some ((source, sha256hex content) :: m)

/-- Embedding of computeContentHash (hash.js lines 61-70): sort the keys of the
source-hash map, concatenate the per-file digests in that order, digest the
concatenation. -/
def computeContentHash (sha256hex : String → String) (sourceHashes : List (String × String)) :
    String :=
  let sortedKeys := (sourceHashes.map Prod.fst).mergeSort
  let combined := String.join (sortedKeys.map (fun k => (findVal k sourceHashes).getD ""))
  sha256hex combined

lemma findVal_perm {α β : Type} [DecidableEq α] {l₁ l₂ : List (α × β)}
    (hp : l₁.Perm l₂) (hn : (l₁.map Prod.fst).Nodup) (k : α) :
    findVal k l₁ = findVal k l₂ := by
  induction hp with
  | nil => rfl
  | cons x _ ih =>
    obtain ⟨a, b⟩ := x
    simp only [List.map_cons, List.nodup_cons] at hn
    simp only [findVal]
    split
    · rfl
    · exact ih hn.2
  | swap x y l =>
    obtain ⟨a, b⟩ := x
    obtain ⟨c, d⟩ := y
    simp only [List.map_cons, List.nodup_cons, List.mem_cons] at hn
    have hac : a ≠ c := fun h => hn.1 (Or.inl h.symm)
    simp only [findVal]
    by_cases hck : c = k <;> by_cases hak : a = k
    · exact absurd (hak.trans hck.symm) hac
    · simp [hck, hak]
    · simp [hck, hak]
    · simp [hck, hak]
  | trans h₁ _ ih₁ ih₂ =>
    have hn₂ := ((h₁.map Prod.fst).nodup_iff).mp hn
    exact (ih₁ hn).trans (ih₂ hn₂)

/-- C2: the content fingerprint computed by computeContentHash is invariant
under any reordering of the source-hash map entries: identical
path-to-digest sets yield the identical fingerprint, because the digest is
taken over the per-file digests concatenated in sorted key order. -/
theorem computeContentHash_perm_invariant (sha256hex : String → String)
    (l₁ l₂ : List (String × String)) (hn : (l₁.map Prod.fst).Nodup)
    (hp : l₁.Perm l₂) :
    computeContentHash sha256hex l₁ = computeContentHash sha256hex l₂ := by
  have hkeys : (l₁.map Prod.fst).Perm (l₂.map Prod.fst) := hp.map Prod.fst
  have hsorteq : (l₁.map Prod.fst).mergeSort = (l₂.map Prod.fst).mergeSort :=
    List.eq_of_perm_of_sorted
      ((List.mergeSort_perm _ _).trans (hkeys.trans (List.mergeSort_perm _ _).symm))
      (List.sorted_mergeSort' _) (List.sorted_mergeSort' _)
  have hvals : (fun k => (findVal k l₁).getD "") = fun k => (findVal k l₂).getD "" :=
    funext fun k => by rw [findVal_perm hp hn k]
  simp only [computeContentHash, hsorteq, hvals]

/-- Witness for C2 at a concrete reordered map. -/
theorem computeContentHash_perm_invariant_witness :
    computeContentHash (fun s => s) [("b", "B"), ("a", "A")] =
      computeContentHash (fun s => s) [("a", "A"), ("b", "B")] :=
  computeContentHash_perm_invariant (fun s => s) _ _ (by decide) (by decide)

/-- C3: computeHashes is all-or-nothing: it returns null exactly when some
listed source path has no file in the worktree, no matter how many of the
other paths exist; when it returns a map, the map assigns to each listed
source path the digest of the content of that file. -/
theorem computeHashes_all_or_nothing (sha256hex : String → String)
    (worktree : String → Option String) (sources : List String) :
    (computeHashes sha256hex worktree sources = none ↔
      ∃ s ∈ sources, worktree s = none) ∧
    (∀ m, computeHashes sha256hex worktree sources = some m →
      ∀ s c, s ∈ sources → worktree s = some c →
        findVal s m = some (sha256hex c)) := by
  induction sources with
  | nil => simp [computeHashes]
  | cons source rest ih =>
    constructor
    · simp only [computeHashes, List.mem_cons]
      cases hws : worktree source with
      | none => simp [hws]
      | some content =>
        cases hr : computeHashes sha256hex worktree rest with
        | none =>
          simpa [hws] using ih.1.mp hr
        | some m =>
          simp only [reduceCtorEq, false_iff, not_exists, not_and]
          rintro s (rfl | hs)
          · simp [hws]
          · intro hnone
            have := ih.1.mpr ⟨s, hs, hnone⟩
            simp [this] at hr
    · intro m hm s c hs hwc
      simp only [computeHashes] at hm
      cases hws : worktree source with
      | none => simp [hws] at hm
      | some content =>
        simp only [hws] at hm
        cases hr : computeHashes sha256hex worktree rest with
        | none => simp [hr] at hm
        | some m' =>
          simp only [hr] at hm
          obtain rfl : (source, sha256hex content) :: m' = m := by
            simpa using hm
          rcases List.mem_cons.mp hs with rfl | hmem
          · rw [hwc] at hws
            obtain rfl : c = content := by simpa using hws
            simp [findVal]
          · by_cases hse : source = s
            · subst hse
              rw [hwc] at hws
              obtain rfl : c = content := by simpa using hws
              simp [findVal]
            · simp only [findVal, hse, if_neg hse]
              exact ih.2 m' hr s c hmem hwc

/-- Witness for C3 at a concrete worktree with one present file, exercising
the some-map branch, plus the null branch on a missing sibling path. -/
theorem computeHashes_all_or_nothing_witness :
    findVal "a" [("a", "x")] = some "x" ∧
      computeHashes (fun s => s) (fun p => if p = "a" then some "x" else none)
        ["a", "b"] = none :=
  ⟨(computeHashes_all_or_nothing (fun s => s)
      (fun p => if p = "a" then some "x" else none) ["a"]).2
      [("a", "x")] (by decide) "a" "x" (by decide) (by decide),
   (computeHashes_all_or_nothing (fun s => s)
      (fun p => if p = "a" then some "x" else none) ["a", "b"]).1.mpr
      ⟨"b", by decide, by decide⟩⟩

/-! ## lib/utils/sources.js : resolveSources -/

/-- JavaScript Set insertion: add the element only when it is not yet a
member, keeping first-insertion order (Array.from order). -/
def addToSet (set : List String) (x : String) : List String :=
  if x ∈ set then set else set ++ [x]

/-- Union a list of elements into the set, in order. -/
def dedupAdd (set : List String) (xs : List String) : List String :=
  xs.foldl addToSet set

/-- new Set(staticSources) materialized back to a list. -/
def jsSetOf (xs : List String) : List String :=
  dedupAdd [] xs

/-- Parsing of the standard output of a source command (sources.js lines 58-64):
trim, split on newlines, drop blank lines, trim each kept line. -/
def parseCmdOutput (output : String) : List String :=
  ((output.trim.splitOn "\n").filter (fun line => line.trim.length != 0)).map
    (fun p => p.trim)

/-- The warning emitted when a source command exits nonzero or fails to
spawn (sources.js line 67). -/
def cmdFailMsg (command : String) : String :=
  "Failed to run sourceCommand " ++ command

structure SourcesResult where
  sources : List String
  warnings : List String
deriving DecidableEq, Repr

/-- The command loop of resolveSources (sources.js lines 28-70).  runCmd
models one spawned shell: some stdout when the process exits 0, none on a
nonzero exit or a spawn error.  A failed command contributes a warning and
the loop continues with the set unchanged. -/
def runSourceCommands (runCmd : String → Option String) :
    List String → List String → SourcesResult
  | [], set => ⟨set, []⟩
  | command :: rest, set =>
    match runCmd command with
    | some output =>
      let r := runSourceCommands runCmd rest (dedupAdd set (parseCmdOutput output))
      ⟨r.sources, r.warnings⟩
    | none =>
      let r := runSourceCommands runCmd rest set
      ⟨r.sources, cmdFailMsg command :: r.warnings⟩

/-- Embedding of resolveSources (sources.js lines 14-78): seed a set with the
static sources; when sourceCommands is absent or empty return it at once;
otherwise run each command in order, unioning parsed output into the set. -/
def resolveSources (runCmd : String → Option String) (staticSources : List String)
    (sourceCommands : Option (List String)) : SourcesResult :=
  let set := jsSetOf staticSources
  match sourceCommands with
  | none => ⟨set, []⟩
  | some cmds =>
    if cmds.length = 0 then ⟨set, []⟩
    else runSourceCommands runCmd cmds set

lemma mem_addToSet_of_mem {set : List String} {s : String} (x : String)
    (h : s ∈ set) : s ∈ addToSet set x := by
  unfold addToSet
  split
  · exact h
  · exact List.mem_append_left _ h

lemma self_mem_addToSet (set : List String) (x : String) : x ∈ addToSet set x := by
  unfold addToSet
  split
  · assumption
  · exact List.mem_append_right _ (List.mem_singleton.mpr rfl)

lemma mem_dedupAdd_of_mem {set : List String} {s : String} (xs : List String)
    (h : s ∈ set) : s ∈ dedupAdd set xs := by
  induction xs generalizing set with
  | nil => exact h
  | cons x rest ih => exact ih (mem_addToSet_of_mem x h)

lemma mem_dedupAdd_of_mem_arg {s : String} {xs : List String} (set : List String)
    (h : s ∈ xs) : s ∈ dedupAdd set xs := by
  induction xs generalizing set with
  | nil => cases h
  | cons x rest ih =>
    rcases List.mem_cons.mp h with rfl | hmem
    · exact mem_dedupAdd_of_mem rest (self_mem_addToSet set s)
    · exact ih _ hmem

lemma mem_runSourceCommands {set : List String} {s : String}
    (runCmd : String → Option String) (cmds : List String) (h : s ∈ set) :
    s ∈ (runSourceCommands runCmd cmds set).sources := by
  induction cmds generalizing set with
  | nil => exact h
  | cons command rest ih =>
    simp only [runSourceCommands]
    cases runCmd command with
    | some output => exact ih (mem_dedupAdd_of_mem _ h)
    | none => exact ih h

/-- C5: resolveSources always retains every static source; with an empty or
absent command list it returns the deduplicated static sources at once (for
every possible process behaviour, i.e. without consulting any process); and
a command that fails only contributes a warning while the remaining commands
are still processed from the same accumulated set. -/
theorem resolveSources_spec (runCmd : String → Option String)
    (staticSources : List String) :
    (∀ sc, ∀ s ∈ staticSources, s ∈ (resolveSources runCmd staticSources sc).sources) ∧
    resolveSources runCmd staticSources none = ⟨jsSetOf staticSources, []⟩ ∧
    resolveSources runCmd staticSources (some []) = ⟨jsSetOf staticSources, []⟩ ∧
    (∀ c rest, runCmd c = none →
      resolveSources runCmd staticSources (some (c :: rest)) =
        ⟨(runSourceCommands runCmd rest (jsSetOf staticSources)).sources,
         cmdFailMsg c ::
           (runSourceCommands runCmd rest (jsSetOf staticSources)).warnings⟩) := by
  refine ⟨?_, rfl, rfl, ?_⟩
  · intro sc s hs
    have hset : s ∈ jsSetOf staticSources := mem_dedupAdd_of_mem_arg [] hs
    match sc with
    | none => exact hset
    | some cmds =>
      simp only [resolveSources]
      split
      · exact hset
      · exact mem_runSourceCommands runCmd cmds hset
  · intro c rest hfail
    simp [resolveSources, runSourceCommands, hfail]

/-- Witness for C5: a concrete failing first command does not lose the
static source nor abort the succeeding second command. -/
theorem resolveSources_spec_witness :
    "static.txt" ∈ (resolveSources
        (fun c => if c = "ok" then some "dynamic.txt" else none)
        ["static.txt"] (some ["bad", "ok"])).sources ∧
    resolveSources (fun c => if c = "ok" then some "dynamic.txt" else none)
        ["static.txt"] (some ["bad", "ok"]) =
      ⟨(runSourceCommands (fun c => if c = "ok" then some "dynamic.txt" else none)
          ["ok"] (jsSetOf ["static.txt"])).sources,
       cmdFailMsg "bad" ::
         (runSourceCommands (fun c => if c = "ok" then some "dynamic.txt" else none)
           ["ok"] (jsSetOf ["static.txt"])).warnings⟩ :=
  ⟨(resolveSources_spec (fun c => if c = "ok" then some "dynamic.txt" else none)
      ["static.txt"]).1 (some ["bad", "ok"]) "static.txt" (by decide),
   (resolveSources_spec (fun c => if c = "ok" then some "dynamic.txt" else none)
      ["static.txt"]).2.2.2 "bad" ["ok"] (by decide)⟩

/-! ## lib/utils/sources.js : resolveDependencySources -/

/-- The per-key registry record built by buildEntriesMap (sources.js
lines 159-173). -/
structure DepEntry where
  sources : List String
  sourceCommands : List String
  dependsOn : List String
deriving DecidableEq, Repr

/-- Result of dependency resolution, with the warnings it logged. -/
structure DepResult where
  sources : List String
  sourceCommands : List String
  diags : List String
deriving DecidableEq, Repr

/-- The circular-dependency warning (sources.js line 106). -/
def circularMsg (key depKey : String) : String :=
  "Circular dependency detected: " ++ key ++ " -> " ++ depKey

/-- The missing-dependency warning (sources.js line 113). -/
def notFoundMsg (depKey key : String) : String :=
  "Dependency not found: " ++ depKey ++ " required by " ++ key

lemma findVal_some_mem {α β : Type} [DecidableEq α] {k : α} {v : β}
    {l : List (α × β)} (h : findVal k l = some v) : k ∈ l.map Prod.fst := by
  induction l with
  | nil => simp [findVal] at h
  | cons p rest ih =>
    obtain ⟨a, b⟩ := p
    by_cases hak : a = k
    · subst hak
      simp
    · simp only [findVal, if_neg hak] at h
      simpa using Or.inr (ih h)

lemma length_filter_not_mem_le (keys visited extra : List String)
    (himp : ∀ k, k ∉ extra → k ∉ visited) :
    (keys.filter (fun k => decide (k ∉ extra))).length ≤
      (keys.filter (fun k => decide (k ∉ visited))).length := by
  induction keys with
  | nil => simp
  | cons b keys ih =>
    by_cases hb : b ∈ extra
    · have e₁ : (b :: keys).filter (fun k => decide (k ∉ extra)) =
          keys.filter (fun k => decide (k ∉ extra)) := by simp [hb]
      by_cases hbv : b ∈ visited
      · have e₂ : (b :: keys).filter (fun k => decide (k ∉ visited)) =
            keys.filter (fun k => decide (k ∉ visited)) := by simp [hbv]
        rw [e₁, e₂]
        exact ih
      · have e₂ : (b :: keys).filter (fun k => decide (k ∉ visited)) =
            b :: keys.filter (fun k => decide (k ∉ visited)) := by simp [hbv]
        rw [e₁, e₂, List.length_cons]
        exact Nat.le_succ_of_le ih
    · have hbv : b ∉ visited := himp b hb
      have e₁ : (b :: keys).filter (fun k => decide (k ∉ extra)) =
          b :: keys.filter (fun k => decide (k ∉ extra)) := by simp [hb]
      have e₂ : (b :: keys).filter (fun k => decide (k ∉ visited)) =
          b :: keys.filter (fun k => decide (k ∉ visited)) := by simp [hbv]
      rw [e₁, e₂, List.length_cons, List.length_cons]
      exact Nat.succ_le_succ ih

lemma length_filter_strict_lt (keys extra visited : List String)
    (himp : ∀ k, k ∉ extra → k ∉ visited) (a : String) (ha : a ∈ keys)
    (hae : a ∈ extra) (hav : a ∉ visited) :
    (keys.filter (fun k => decide (k ∉ extra))).length <
      (keys.filter (fun k => decide (k ∉ visited))).length := by
  induction keys with
  | nil => cases ha
  | cons b keys ih =>
    by_cases hab : b = a
    · subst hab
      have e₁ : (b :: keys).filter (fun k => decide (k ∉ extra)) =
          keys.filter (fun k => decide (k ∉ extra)) := by simp [hae]
      have e₂ : (b :: keys).filter (fun k => decide (k ∉ visited)) =
          b :: keys.filter (fun k => decide (k ∉ visited)) := by simp [hav]
      rw [e₁, e₂, List.length_cons]
      exact Nat.lt_succ_of_le (length_filter_not_mem_le keys visited extra himp)
    · have ha' : a ∈ keys := by
        rcases List.mem_cons.mp ha with h | h
        · exact absurd h.symm hab
        · exact h
      have hlt := ih ha'
      by_cases hbe : b ∈ extra
      · have e₁ : (b :: keys).filter (fun k => decide (k ∉ extra)) =
            keys.filter (fun k => decide (k ∉ extra)) := by simp [hbe]
        by_cases hbv : b ∈ visited
        · have e₂ : (b :: keys).filter (fun k => decide (k ∉ visited)) =
              keys.filter (fun k => decide (k ∉ visited)) := by simp [hbv]
          rw [e₁, e₂]
          exact hlt
        · have e₂ : (b :: keys).filter (fun k => decide (k ∉ visited)) =
              b :: keys.filter (fun k => decide (k ∉ visited)) := by simp [hbv]
          rw [e₁, e₂, List.length_cons]
          exact Nat.lt_succ_of_lt hlt
      · have hbv : b ∉ visited := himp b hbe
        have e₁ : (b :: keys).filter (fun k => decide (k ∉ extra)) =
            b :: keys.filter (fun k => decide (k ∉ extra)) := by simp [hbe]
        have e₂ : (b :: keys).filter (fun k => decide (k ∉ visited)) =
            b :: keys.filter (fun k => decide (k ∉ visited)) := by simp [hbv]
        rw [e₁, e₂, List.length_cons, List.length_cons]
        exact Nat.succ_lt_succ hlt

lemma length_filter_cons_lt (keys : List String) (a : String) (visited : List String)
    (ha : a ∈ keys) (hv : a ∉ visited) :
    (keys.filter (fun k => decide (k ∉ a :: visited))).length <
      (keys.filter (fun k => decide (k ∉ visited))).length :=
  length_filter_strict_lt keys (a :: visited) visited
    (fun _k hk hkv => hk (List.mem_cons_of_mem a hkv)) a ha
    (List.mem_cons_self a visited) hv

/-- Embedding of resolveDependencySources (sources.js lines 91-151).  For each
dependency key in order: a key already visited only records a circular
diagnostic; a key absent from the registry only records a not-found
diagnostic; otherwise its sources and sourceCommands are appended and its own
dependsOn list is resolved with the visited set extended by the key (a fresh
copy, so the remaining sibling keys are resolved with the original set).
The function is total: it is accepted by well-founded recursion on the number
of registry keys not yet visited, which is exactly the termination argument
the visited-set check provides in the source. -/
def resolveDependencySources (entriesMap : List (String × DepEntry))
    (dependsOn : List String) (visited : List String) (key : String) : DepResult :=
  match dependsOn with
  | [] => ⟨[], [], []⟩
  | depKey :: rest =>
    let tail := resolveDependencySources entriesMap rest visited key
    if hvis : depKey ∈ visited then
      ⟨tail.sources, tail.sourceCommands, circularMsg key depKey :: tail.diags⟩
    else
      match hfind : findVal depKey entriesMap with
      | none => ⟨tail.sources, tail.sourceCommands, notFoundMsg depKey key :: tail.diags⟩
      | some depEntry =>
        let sub :=
          if depEntry.dependsOn.length ≠ 0 then
            resolveDependencySources entriesMap depEntry.dependsOn (depKey :: visited) depKey
          else ⟨[], [], []⟩
        ⟨depEntry.sources ++ sub.sources ++ tail.sources,
         depEntry.sourceCommands ++ sub.sourceCommands ++ tail.sourceCommands,
         sub.diags ++ tail.diags⟩
termination_by
  (((entriesMap.map Prod.fst).filter (fun k => decide (k ∉ visited))).length,
    dependsOn.length)
decreasing_by
  · apply Prod.Lex.right
    simp
  · apply Prod.Lex.left
    exact length_filter_cons_lt _ _ _ (findVal_some_mem (by assumption)) (by assumption)

/-- C4: resolveDependencySources is a total function even on registries whose
dependsOn edges form arbitrary cycles (its well-founded definition is the
termination argument, and it never throws); a dependency key already in the
visited set contributes exactly one circular-dependency diagnostic and is not
traversed, the result being that of the remaining keys; and a traversed key
is resolved with a fresh extension of the visited set while the remaining
sibling keys are resolved with the original visited set. -/
theorem resolveDependencySources_cycle_spec (em : List (String × DepEntry))
    (depKey : String) (rest visited : List String) (key : String) :
    (depKey ∈ visited →
      resolveDependencySources em (depKey :: rest) visited key =
        ⟨(resolveDependencySources em rest visited key).sources,
         (resolveDependencySources em rest visited key).sourceCommands,
         circularMsg key depKey ::
           (resolveDependencySources em rest visited key).diags⟩) ∧
    (∀ depEntry, depKey ∉ visited → findVal depKey em = some depEntry →
      resolveDependencySources em (depKey :: rest) visited key =
        ⟨depEntry.sources ++
            (resolveDependencySources em depEntry.dependsOn (depKey :: visited)
              depKey).sources ++
            (resolveDependencySources em rest visited key).sources,
         depEntry.sourceCommands ++
            (resolveDependencySources em depEntry.dependsOn (depKey :: visited)
              depKey).sourceCommands ++
            (resolveDependencySources em rest visited key).sourceCommands,
         (resolveDependencySources em depEntry.dependsOn (depKey :: visited)
              depKey).diags ++
            (resolveDependencySources em rest visited key).diags⟩) := by
  constructor
  · intro hv
    rw [resolveDependencySources]
    simp [hv]
  · intro depEntry hnv hfind
    rw [resolveDependencySources]
    rw [dif_neg hnv]
    split
    · rename_i heq
      simp [hfind] at heq
    · rename_i dE heq
      rw [hfind] at heq
      injection heq with h
      subst h
      by_cases hnil : depEntry.dependsOn = []
      · simp [hnil, resolveDependencySources]
      · simp [hnil]

/-- Witness for C4: the two-entry registry with the cycle a -> b -> a; the
already-visited key b yields a single circular diagnostic and resolution
terminates with the empty contribution. -/
theorem resolveDependencySources_cycle_spec_witness :
    resolveDependencySources
        [("a", ⟨["sa"], [], ["b"]⟩), ("b", ⟨["sb"], [], ["a"]⟩)]
        ["b"] ["b"] "a" =
      ⟨[], [], [circularMsg "a" "b"]⟩ :=
  ((resolveDependencySources_cycle_spec
      [("a", ⟨["sa"], [], ["b"]⟩), ("b", ⟨["sb"], [], ["a"]⟩)]
      "b" [] ["b"] "a").1 (by decide)).trans
    (by rw [resolveDependencySources])

/-! ## lib/utils/fs.js : the directory-tree model -/

/-- A filesystem subtree as seen through readdirSync with file types: regular
files (with their byte content), directories with named children, symbolic
links (whose dirent is neither a file nor a directory), and a directory
whose dirent says directory but whose readdirSync raises (permission error,
race) - the injection point for I/O failures. -/
inductive FSEntry where
  | file (content : String)
  | dir (entries : List (String × FSEntry))
  | symlink (target : String)
  | deniedDir
deriving Repr

/-- fs.statSync(p).isDirectory(): true for a readable or denied directory. -/
def isDirectoryEntry : FSEntry → Bool
  | .dir _ => true
  | .deniedDir => true
  | _ => false

mutual

/-- Embedding of checkDirectoryHasFiles (fs.js lines 112-126): readdirSync the
directory and scan its entries; a raised I/O error propagates (Except). -/
def checkDirectoryHasFiles : FSEntry → Except String Bool
  | .dir entries => hasFilesLoop entries
  | .deniedDir => .error "EACCES"
  | _ => .error "ENOTDIR"

/-- The dirent loop of checkDirectoryHasFiles: a regular file ends the scan
with true; a directory dirent (readable or denied) is recursed into; a
symbolic link dirent is neither a file nor a directory and is skipped. -/
def hasFilesLoop : List (String × FSEntry) → Except String Bool
  | [] => .ok false
  | (_, .file _) :: _ => .ok true
  | (_, .symlink _) :: rest => hasFilesLoop rest
  | (_, .dir es) :: rest => do
    let b ← checkDirectoryHasFiles (.dir es)
    if b then .ok true else hasFilesLoop rest
  | (_, .deniedDir) :: rest => do
    let b ← checkDirectoryHasFiles .deniedDir
    if b then .ok true else hasFilesLoop rest

end

/-- Resolve a relative path against a subtree, descending through readable
directories only. -/
def resolvePath : List String → FSEntry → Option FSEntry
  | [], e => some e
  | seg :: rest, e =>
    match e with
    | .dir es =>
      match findVal seg es with
      | some child => resolvePath rest child
      | none => none
    | _ => none

/-- Embedding of checkOutputsExist (fs.js lines 135-159): false when the path
does not exist; otherwise stat it and fail (false) unless it is a directory;
then report whether the subtree holds at least one real file, any raised
I/O error being caught and turned into false. -/
def checkOutputsExist (root : FSEntry) (outputPath : List String) : Bool :=
  match resolvePath outputPath root with
  | none => false
  | some e =>
    if !(isDirectoryEntry e) then false
    else
      match checkDirectoryHasFiles e with
      | .ok hasFiles => hasFiles
      | .error _ => false

mutual

/-- Specification predicate: no denied directory anywhere in the subtree. -/
def noDenied : FSEntry → Bool
  | .file _ => true
  | .symlink _ => true
  | .deniedDir => false
  | .dir es => noDeniedList es

def noDeniedList : List (String × FSEntry) → Bool
  | [] => true
  | (_, e) :: rest => noDenied e && noDeniedList rest

end

mutual

/-- Specification predicate: the subtree of this entry holds at least one
regular file; symbolic links and empty directories never count. -/
def containsRealFile : FSEntry → Bool
  | .file _ => false
  | .symlink _ => false
  | .deniedDir => false
  | .dir es => anyFileList es

def anyFileList : List (String × FSEntry) → Bool
  | [] => false
  | (_, .file _) :: _ => true
  | (_, .symlink _) :: rest => anyFileList rest
  | (_, .deniedDir) :: rest => anyFileList rest
  | (_, .dir es) :: rest => anyFileList es || anyFileList rest

end

lemma hasFilesLoop_ok_of_noDenied :
    ∀ (n : Nat) (es : List (String × FSEntry)), sizeOf es < n →
      noDeniedList es = true → hasFilesLoop es = .ok (anyFileList es) := by
  intro n
  induction n with
  | zero => intro es h; exact absurd h (Nat.not_lt_zero _)
  | succ n ih =>
    intro es hsz hnd
    match es with
    | [] => simp [hasFilesLoop, anyFileList]
    | (a, .file c) :: rest => simp [hasFilesLoop, anyFileList]
    | (a, .symlink t) :: rest =>
      simp only [noDeniedList, noDenied, Bool.true_and] at hnd
      have hr : sizeOf rest < n := by
        simp only [List.cons.sizeOf_spec, Prod.mk.sizeOf_spec] at hsz
        omega
      simp only [hasFilesLoop, anyFileList]
      exact ih rest hr hnd
    | (a, .deniedDir) :: rest =>
      simp [noDeniedList, noDenied] at hnd
    | (a, .dir es') :: rest =>
      simp only [noDeniedList, noDenied, Bool.and_eq_true] at hnd
      have hr : sizeOf rest < n := by
        simp only [List.cons.sizeOf_spec, Prod.mk.sizeOf_spec] at hsz
        omega
      have hes : sizeOf es' < n := by
        simp only [List.cons.sizeOf_spec, Prod.mk.sizeOf_spec,
          FSEntry.dir.sizeOf_spec] at hsz
        omega
      have hsub : hasFilesLoop es' = .ok (anyFileList es') := ih es' hes hnd.1
      simp only [hasFilesLoop, checkDirectoryHasFiles, hsub, anyFileList]
      cases hfile : anyFileList es' with
      | true => rfl
      | false =>
        show hasFilesLoop rest = Except.ok (false || anyFileList rest)
        simpa using ih rest hr hnd.2

lemma checkDirectoryHasFiles_ok_of_noDenied (es : List (String × FSEntry))
    (hnd : noDeniedList es = true) :
    checkDirectoryHasFiles (.dir es) = .ok (anyFileList es) := by
  rw [checkDirectoryHasFiles]
  exact hasFilesLoop_ok_of_noDenied (sizeOf es + 1) es (Nat.lt_succ_self _) hnd

/-- C6: checkOutputsExist is false when the path does not resolve; on a
denied-free subtree it is true exactly when the resolved entry is a
directory whose subtree holds at least one regular file (symbolic links and
empty directories never count); and any I/O error raised while scanning
yields false rather than an exception (the function is total into Bool). -/
theorem checkOutputsExist_spec (root : FSEntry) (p : List String) :
    (resolvePath p root = none → checkOutputsExist root p = false) ∧
    (∀ e, resolvePath p root = some e → noDenied e = true →
      (checkOutputsExist root p = true ↔
        isDirectoryEntry e = true ∧ containsRealFile e = true)) ∧
    (∀ e err, resolvePath p root = some e →
      checkDirectoryHasFiles e = .error err → checkOutputsExist root p = false) := by
  refine ⟨?_, ?_, ?_⟩
  · intro hnone
    simp [checkOutputsExist, hnone]
  · intro e hsome hnd
    simp only [checkOutputsExist, hsome]
    match e with
    | .file c => simp [isDirectoryEntry]
    | .symlink t => simp [isDirectoryEntry]
    | .deniedDir => simp [noDenied] at hnd
    | .dir es =>
      rw [checkDirectoryHasFiles_ok_of_noDenied es (by simpa [noDenied] using hnd)]
      simp [isDirectoryEntry, containsRealFile]
  · intro e err hsome herr
    simp only [checkOutputsExist, hsome]
    match e with
    | .file c => simp [isDirectoryEntry]
    | .symlink t => simp [isDirectoryEntry]
    | .deniedDir => simp [isDirectoryEntry, herr]
    | .dir es => simp [isDirectoryEntry, herr]

/-- Witness for C6: a directory holding only a symbolic link and an empty
subdirectory is reported as having no usable output, while resolution
failure on an absent path also gives false. -/
theorem checkOutputsExist_spec_witness :
    (checkOutputsExist
        (.dir [("out", .dir [("link", .symlink "elsewhere"), ("sub", .dir [])])])
        ["out"] = true ↔
      isDirectoryEntry (.dir [("link", .symlink "elsewhere"), ("sub", .dir [])]) = true ∧
        containsRealFile (.dir [("link", .symlink "elsewhere"), ("sub", .dir [])]) = true) ∧
    checkOutputsExist (.dir []) ["missing"] = false :=
  ⟨(checkOutputsExist_spec
      (.dir [("out", .dir [("link", .symlink "elsewhere"), ("sub", .dir [])])])
      ["out"]).2.1 _ rfl (by simp [noDenied, noDeniedList]),
   (checkOutputsExist_spec (.dir []) ["missing"]).1 rfl⟩

/-! ## lib/utils/fs.js : copyDirectory -/

mutual

/-- Embedding of copyDirectory (fs.js lines 168-192).  The source removes any
existing destination wholesale (rmSync recursive force) and recreates it, so
the old destination content - received here as oldDest - never influences
the result; then each dirent of the source is copied: directories recurse,
regular files are copied byte-identically, anything else (symbolic links) is
silently omitted.  A readdirSync failure propagates to the caller. -/
def copyDirectory (source : FSEntry) (oldDest : Option FSEntry) :
    Except String FSEntry :=
  match source, oldDest with
  | .dir es, _ =>
    match copyEntriesLoop es with
    | .ok copied => .ok (.dir copied)
    | .error e => .error e
  | .deniedDir, _ => .error "EACCES"
  | _, _ => .error "ENOTDIR"

/-- The dirent loop of copyDirectory: a directory dirent recurses into
copyDirectory against a fresh (nonexistent) destination, a file dirent is
copied with its content, and any other dirent is skipped. -/
def copyEntriesLoop : List (String × FSEntry) → Except String (List (String × FSEntry))
  | [] => .ok []
  | (n, .dir es) :: rest => do
    let sub ← copyDirectory (.dir es) none
    let tail ← copyEntriesLoop rest
    .ok ((n, sub) :: tail)
  | (n, .deniedDir) :: rest => do
    let sub ← copyDirectory .deniedDir none
    let tail ← copyEntriesLoop rest
    .ok ((n, sub) :: tail)
  | (n, .file c) :: rest => do
    let tail ← copyEntriesLoop rest
    .ok ((n, .file c) :: tail)
  | (_, .symlink _) :: rest => copyEntriesLoop rest

end

/-- Specification mirror of a directory listing: regular files kept with
their content, directories kept recursively, symbolic links omitted. -/
def mirrorSpec : List (String × FSEntry) → List (String × FSEntry)
  | [] => []
  | (n, .file c) :: rest => (n, .file c) :: mirrorSpec rest
  | (n, .dir es) :: rest => (n, .dir (mirrorSpec es)) :: mirrorSpec rest
  | (n, .deniedDir) :: rest => (n, .deniedDir) :: mirrorSpec rest
  | (_, .symlink _) :: rest => mirrorSpec rest

lemma copyEntriesLoop_ok_of_noDenied :
    ∀ (n : Nat) (es : List (String × FSEntry)), sizeOf es < n →
      noDeniedList es = true → copyEntriesLoop es = .ok (mirrorSpec es) := by
  intro n
  induction n with
  | zero => intro es h; exact absurd h (Nat.not_lt_zero _)
  | succ n ih =>
    intro es hsz hnd
    match es with
    | [] => simp [copyEntriesLoop, mirrorSpec]
    | (a, .file c) :: rest =>
      simp only [noDeniedList, noDenied, Bool.true_and] at hnd
      have hr : sizeOf rest < n := by
        simp only [List.cons.sizeOf_spec, Prod.mk.sizeOf_spec] at hsz
        omega
      simp only [copyEntriesLoop, mirrorSpec, ih rest hr hnd]
      rfl
    | (a, .symlink t) :: rest =>
      simp only [noDeniedList, noDenied, Bool.true_and] at hnd
      have hr : sizeOf rest < n := by
        simp only [List.cons.sizeOf_spec, Prod.mk.sizeOf_spec] at hsz
        omega
      simp only [copyEntriesLoop, mirrorSpec]
      exact ih rest hr hnd
    | (a, .deniedDir) :: rest =>
      simp [noDeniedList, noDenied] at hnd
    | (a, .dir es') :: rest =>
      simp only [noDeniedList, noDenied, Bool.and_eq_true] at hnd
      have hr : sizeOf rest < n := by
        simp only [List.cons.sizeOf_spec, Prod.mk.sizeOf_spec] at hsz
        omega
      have hes : sizeOf es' < n := by
        simp only [List.cons.sizeOf_spec, Prod.mk.sizeOf_spec,
          FSEntry.dir.sizeOf_spec] at hsz
        omega
      simp only [copyEntriesLoop, copyDirectory, ih es' hes hnd.1,
        ih rest hr hnd.2, mirrorSpec]
      rfl

/-- C10: copyDirectory is independent of whatever occupied the destination
(the destination is deleted wholesale first), and on a denied-free source
directory it produces exactly the regular files (byte-identical) and
directories of the source subtree, with symbolic links omitted. -/
theorem copyDirectory_spec (source : FSEntry) (d₁ d₂ : Option FSEntry) :
    copyDirectory source d₁ = copyDirectory source d₂ ∧
    (∀ es, source = .dir es → noDenied source = true →
      copyDirectory source d₁ = .ok (.dir (mirrorSpec es))) := by
  constructor
  · cases source <;> rfl
  · rintro es rfl hnd
    rw [copyDirectory]
    rw [copyEntriesLoop_ok_of_noDenied (sizeOf es + 1) es (Nat.lt_succ_self _)
      (by simpa [noDenied] using hnd)]

/-- Witness for C10: a source with a file, a symbolic link and an empty
subdirectory, copied over a non-empty old destination: the result keeps the
file and the directory, drops the link, and owes nothing to the old
destination. -/
theorem copyDirectory_spec_witness :
    copyDirectory
        (.dir [("f", .file "x"), ("l", .symlink "t"), ("sub", .dir [])])
        (some (.dir [("old", .file "junk")])) =
      .ok (.dir [("f", .file "x"), ("sub", .dir [])]) :=
  ((copyDirectory_spec
      (.dir [("f", .file "x"), ("l", .symlink "t"), ("sub", .dir [])])
      (some (.dir [("old", .file "junk")])) none).2
      [("f", .file "x"), ("l", .symlink "t"), ("sub", .dir [])] rfl
      (by simp [noDenied, noDeniedList])).trans
    (by simp [mirrorSpec])

/-! ## lib/utils/cache.js : the pointer store -/

/-- The pointer record shape written by the population phase
(collector-cache-extension.js lines 566-571). -/
structure Pointer where
  outputDir : String
  scanDir : String
  sources : List (String × String)
  timestamp : String
deriving DecidableEq, Repr

/-- Flat filesystem view for the pointer store: a path-indexed file map with
the set of directories that exist.  Paths are segment lists. -/
structure FileSys where
  files : List (List String × String)
  dirs : List (List String)
deriving DecidableEq, Repr

/-- The debug line of loadPointerFile when no file exists (cache.js line 16). -/
def noPointerFileMsg : String := "No pointer file"

/-- The warning of loadPointerFile when reading or parsing fails
(cache.js line 24). -/
def badPointerFileMsg : String := "Failed to read pointer file"

/-- Embedding of loadPointerFile (cache.js lines 14-27).  parse stands for
JSON.parse on the expected record shape.  When the path does not exist the
result is null with a debug note; when it exists but reading it or parsing
its content raises (a directory occupies the path, or malformed JSON), the
error is caught and the result is null with a warning; otherwise the parsed
record is returned.  The function never throws: it is total. -/
def loadPointerFile (parse : String → Except String Pointer) (fsys : FileSys)
    (pointerPath : List String) : Option Pointer × List String :=
  match findVal pointerPath fsys.files with
  | none =>
    if pointerPath ∈ fsys.dirs then (none, [badPointerFileMsg])
    else (none, [noPointerFileMsg])
  | some content =>
    match parse content with
    | .ok record => (some record, [])
    | .error _ => (none, [badPointerFileMsg])

/-- writeFileSync: overwrite the content mapped at the path, keeping the
position of an existing entry, appending a new one otherwise. -/
def setFile : List (List String × String) → List String → String →
    List (List String × String)
  | [], p, c => [(p, c)]
  | (q, d) :: rest, p, c =>
    if q = p then (p, c) :: rest else (q, d) :: setFile rest p c

/-- mkdirSync recursive: every prefix of the directory path comes to exist. -/
def mkdirRecursive (dirs : List (List String)) (d : List String) :
    List (List String) :=
  dirs ++ (((List.range (d.length + 1)).map (fun i => d.take i)).filter
    (fun q => decide (q ∉ dirs)))

/-- Embedding of savePointerFile (cache.js lines 36-41): create the parent
directories of the pointer path, then write the serialized record,
overwriting any existing file there.  stringify stands for
JSON.stringify(pointer, null, 2). -/
def savePointerFile (stringify : Pointer → String) (fsys : FileSys)
    (pointerPath : List String) (record : Pointer) : FileSys :=
  ⟨setFile fsys.files pointerPath (stringify record),
   mkdirRecursive fsys.dirs pointerPath.dropLast⟩

/-- C8: loadPointerFile returns null when no file exists at the path, null
with a warning when the file exists but fails to parse, and the parsed
record when parsing succeeds; in the model it is a total function, so it
never throws to its caller. -/
theorem loadPointerFile_safe (parse : String → Except String Pointer)
    (fsys : FileSys) (p : List String) :
    (findVal p fsys.files = none → p ∉ fsys.dirs →
      loadPointerFile parse fsys p = (none, [noPointerFileMsg])) ∧
    (∀ content err, findVal p fsys.files = some content →
      parse content = .error err →
      loadPointerFile parse fsys p = (none, [badPointerFileMsg])) ∧
    (∀ content record, findVal p fsys.files = some content →
      parse content = .ok record →
      loadPointerFile parse fsys p = (some record, [])) := by
  refine ⟨?_, ?_, ?_⟩
  · intro hnone hnd
    simp [loadPointerFile, hnone, hnd]
  · intro content err hsome herr
    simp [loadPointerFile, hsome, herr]
  · intro content record hsome hok
    simp [loadPointerFile, hsome, hok]

/-- Witness for C8: an absent pointer path yields null with the debug note; a
present but malformed pointer file yields null with the warning; a
well-formed one yields its record. -/
theorem loadPointerFile_safe_witness :
    loadPointerFile (fun s => if s = "good" then .ok ⟨"h", "d", [], "t"⟩
        else .error "bad JSON") ⟨[(["p"], "oops")], []⟩ ["q"] =
      (none, [noPointerFileMsg]) ∧
    loadPointerFile (fun s => if s = "good" then .ok ⟨"h", "d", [], "t"⟩
        else .error "bad JSON") ⟨[(["p"], "oops")], []⟩ ["p"] =
      (none, [badPointerFileMsg]) ∧
    loadPointerFile (fun s => if s = "good" then .ok ⟨"h", "d", [], "t"⟩
        else .error "bad JSON") ⟨[(["p"], "good")], []⟩ ["p"] =
      (some ⟨"h", "d", [], "t"⟩, []) :=
  ⟨(loadPointerFile_safe _ ⟨[(["p"], "oops")], []⟩ ["q"]).1 (by decide) (by decide),
   (loadPointerFile_safe _ ⟨[(["p"], "oops")], []⟩ ["p"]).2.1 "oops" "bad JSON"
     (by decide) (by simp),
   (loadPointerFile_safe _ ⟨[(["p"], "good")], []⟩ ["p"]).2.2 "good" ⟨"h", "d", [], "t"⟩
     (by decide) (by simp)⟩

lemma findVal_setFile (files : List (List String × String)) (p : List String)
    (c : String) : findVal p (setFile files p c) = some c := by
  induction files with
  | nil => simp [setFile, findVal]
  | cons qd rest ih =>
    obtain ⟨q, d⟩ := qd
    by_cases hqp : q = p
    · simp [setFile, hqp, findVal]
    · simp only [setFile, if_neg hqp, findVal, hqp]
      simpa using ih

lemma mem_mkdirRecursive (dirs : List (List String)) (d : List String)
    (i : Nat) (hi : i ≤ d.length) : d.take i ∈ mkdirRecursive dirs d := by
  by_cases hmem : d.take i ∈ dirs
  · exact List.mem_append_left _ hmem
  · refine List.mem_append_right _ ?_
    rw [List.mem_filter]
    refine ⟨List.mem_map.mpr ⟨i, ?_, rfl⟩, by simpa using hmem⟩
    exact List.mem_range.mpr (Nat.lt_succ_of_le hi)

/-- C9: saving a pointer record and loading it back from the same path yields
the record itself, for every record the serializer round-trips (the meaning
of JSON-serializable); moreover the save puts the serialized record at the
path regardless of what was there before (overwrite) and brings every
parent directory of the path into existence. -/
theorem savePointerFile_roundTrip (stringify : Pointer → String)
    (parse : String → Except String Pointer) (fsys : FileSys)
    (p : List String) (record : Pointer)
    (hjson : parse (stringify record) = .ok record) :
    loadPointerFile parse (savePointerFile stringify fsys p record) p =
      (some record, []) ∧
    findVal p (savePointerFile stringify fsys p record).files =
      some (stringify record) ∧
    (∀ i, i ≤ p.dropLast.length →
      p.dropLast.take i ∈ (savePointerFile stringify fsys p record).dirs) := by
  have hfile : findVal p (setFile fsys.files p (stringify record)) =
      some (stringify record) := findVal_setFile fsys.files p (stringify record)
  refine ⟨?_, hfile, ?_⟩
  · simp [loadPointerFile, savePointerFile, hfile, hjson]
  · intro i hi
    exact mem_mkdirRecursive fsys.dirs p.dropLast i hi

/-- Witness for C9 with an invertible concrete serializer at one record,
saving over a filesystem that already holds different content at the path. -/
theorem savePointerFile_roundTrip_witness :
    loadPointerFile
        (fun s => if s = "enc" then .ok ⟨"h", "d", [("a", "x")], "t"⟩
          else .error "bad")
        (savePointerFile (fun _ => "enc")
          ⟨[(["base", "k", "f.json"], "stale")], []⟩
          ["base", "k", "f.json"] ⟨"h", "d", [("a", "x")], "t"⟩)
        ["base", "k", "f.json"] =
      (some ⟨"h", "d", [("a", "x")], "t"⟩, []) :=
  (savePointerFile_roundTrip (fun _ => "enc")
    (fun s => if s = "enc" then .ok ⟨"h", "d", [("a", "x")], "t"⟩
      else .error "bad")
    ⟨[(["base", "k", "f.json"], "stale")], []⟩
    ["base", "k", "f.json"] ⟨"h", "d", [("a", "x")], "t"⟩ (by simp)).1

/-! ## collector-cache-extension.js : the cache decision -/

/-- Outcome of one build-entry cache evaluation. -/
inductive CacheDecision where
  | hit
  | miss (reason : String)
deriving DecidableEq, Repr

/-- The three MISS reasons of collector-cache-extension.js line 473. -/
def forcedMsg : String := "FORCE_COLLECTOR=true"

def noEntryMsg : String := "no cache entry"

def outputsMissingMsg : String := "cached outputs missing"

/-- Embedding of the decision logic (collector-cache-extension.js lines
429-491): load the pointer at componentHashDir/key/contentHash.json; when a
pointer was loaded, check the stored outputs at cache root / outputs /
pointer.outputDir / entry cacheDir against the disk tree; the entry is
skipped (HIT) exactly when shouldSkip = not forced, pointer present and
outputs existing, and otherwise runs (MISS) with the reason chosen among
the forced override, the absent pointer, and the missing outputs. -/
def evaluateCacheDecision (forceRun : Bool)
    (parse : String → Except String Pointer) (store : FileSys)
    (diskRoot : FSEntry) (componentHashDir : List String) (key : String)
    (contentHash : String) (cacheRootDir : List String)
    (outputDir : List String) : CacheDecision :=
  let pointerPath := componentHashDir ++ [key, contentHash ++ ".json"]
  let pointer := (loadPointerFile parse store pointerPath).1
  let cachedOutputsExist :=
    match pointer with
    | some ptr =>
      checkOutputsExist diskRoot
        (cacheRootDir ++ ["outputs", ptr.outputDir] ++ outputDir)
    | none => false
  if !forceRun && pointer.isSome && cachedOutputsExist then .hit
  else
    .miss (if forceRun then forcedMsg
      else if pointer.isNone then noEntryMsg else outputsMissingMsg)

/-- C1: the decision is HIT exactly when the force signal is inactive, a
pointer record was loaded for the content fingerprint, and the existence
check succeeds on the stored output path joined from the cache root,
outputs, the recorded outputDir of the pointer and the entry cacheDir; every
other case is a MISS whose reason distinguishes the forced override, the
absent pointer, and the present pointer with missing or emptied outputs. -/
theorem evaluateCacheDecision_spec (forceRun : Bool)
    (parse : String → Except String Pointer) (store : FileSys)
    (diskRoot : FSEntry) (componentHashDir : List String) (key : String)
    (contentHash : String) (cacheRootDir : List String)
    (outputDir : List String) :
    (evaluateCacheDecision forceRun parse store diskRoot componentHashDir key
        contentHash cacheRootDir outputDir = .hit ↔
      forceRun = false ∧
        ∃ ptr, (loadPointerFile parse store
            (componentHashDir ++ [key, contentHash ++ ".json"])).1 = some ptr ∧
          checkOutputsExist diskRoot
            (cacheRootDir ++ ["outputs", ptr.outputDir] ++ outputDir) = true) ∧
    (forceRun = true →
      evaluateCacheDecision forceRun parse store diskRoot componentHashDir key
        contentHash cacheRootDir outputDir = .miss forcedMsg) ∧
    (forceRun = false →
      (loadPointerFile parse store
        (componentHashDir ++ [key, contentHash ++ ".json"])).1 = none →
      evaluateCacheDecision forceRun parse store diskRoot componentHashDir key
        contentHash cacheRootDir outputDir = .miss noEntryMsg) ∧
    (∀ ptr, forceRun = false →
      (loadPointerFile parse store
        (componentHashDir ++ [key, contentHash ++ ".json"])).1 = some ptr →
      checkOutputsExist diskRoot
          (cacheRootDir ++ ["outputs", ptr.outputDir] ++ outputDir) = false →
      evaluateCacheDecision forceRun parse store diskRoot componentHashDir key
        contentHash cacheRootDir outputDir = .miss outputsMissingMsg) := by
  refine ⟨?_, ?_, ?_, ?_⟩
  · cases hp : (loadPointerFile parse store
        (componentHashDir ++ [key, contentHash ++ ".json"])).1 with
    | none =>
      simp only [evaluateCacheDecision, hp]
      cases forceRun <;> simp
    | some ptr =>
      simp only [evaluateCacheDecision, hp]
      cases forceRun <;>
        cases hout : checkOutputsExist diskRoot
          (cacheRootDir ++ "outputs" :: ptr.outputDir :: outputDir) <;>
        simp [hout]
  · intro hforce
    subst hforce
    cases hp : (loadPointerFile parse store
        (componentHashDir ++ [key, contentHash ++ ".json"])).1 <;>
      simp [evaluateCacheDecision, hp]
  · intro hforce hp
    subst hforce
    simp [evaluateCacheDecision, hp]
  · intro ptr hforce hp hout
    subst hforce
    simp at hout
    simp [evaluateCacheDecision, hp, hout]

/-- Witness for C1: with an empty pointer store and no force signal the
decision is MISS for the absent pointer; with the force signal active it is
MISS for the override. -/
theorem evaluateCacheDecision_spec_witness :
    evaluateCacheDecision false (fun _ => .error "bad") ⟨[], []⟩ (.dir [])
        ["hashes", "comp"] "build" "abc" ["cache"] ["out"] =
      .miss noEntryMsg ∧
    evaluateCacheDecision true (fun _ => .error "bad") ⟨[], []⟩ (.dir [])
        ["hashes", "comp"] "build" "abc" ["cache"] ["out"] =
      .miss forcedMsg :=
  ⟨(evaluateCacheDecision_spec false (fun _ => .error "bad") ⟨[], []⟩ (.dir [])
      ["hashes", "comp"] "build" "abc" ["cache"] ["out"]).2.2.1 rfl (by decide),
   (evaluateCacheDecision_spec true (fun _ => .error "bad") ⟨[], []⟩ (.dir [])
      ["hashes", "comp"] "build" "abc" ["cache"] ["out"]).2.1 rfl⟩

/-! ## collector-cache-extension.js : entry validation -/

/-- The run sub-object of a configured entry, with the fields the validation
touches; each is optional and the two casings of the cache directory key are
kept apart (Antora lowercases YAML keys, so both are consulted). -/
structure RunConfig where
  key : Option String
  sources : Option (List String)
  cachedir : Option String
  cacheDir : Option String
deriving DecidableEq, Repr

/-- A configured entry: the run sub-object may be absent. -/
structure ConfigEntry where
  run : Option RunConfig
deriving DecidableEq, Repr

/-- JavaScript truthiness of an optional string: present and non-empty. -/
def jsTruthyStr : Option String → Bool
  | some s => !(s == "")
  | none => false

/-- JavaScript x || y on optional strings: the first operand when truthy,
the second otherwise. -/
def jsOrStr (a b : Option String) : Option String :=
  if jsTruthyStr a then a else b

/-- The validation check of collector-cache-extension.js lines 269-274 (and
identically lines 218-224): an entry passes when run is present, run.key is
truthy, run.sources is present (note: an empty array is truthy in
JavaScript, so it passes), and run.cachedir or run.cacheDir is truthy. -/
def entryValid (run : Option RunConfig) : Bool :=
  match run with
  | none => false
  | some r =>
    jsTruthyStr r.key && r.sources.isSome &&
      jsTruthyStr (jsOrStr r.cachedir r.cacheDir)

/-- The warning of collector-cache-extension.js line 272. -/
def invalidEntryMsg : String :=
  "Skipping invalid entry missing run.key, run.sources, or run.cachedir"

/-- The entry loop as far as validation is concerned: an invalid entry is
reported and skipped (it is never pushed for execution tracking, hashing or
caching), a valid one proceeds; every sibling is still examined. -/
def processEntries : List ConfigEntry → List ConfigEntry × List String
  | [] => ([], [])
  | entry :: rest =>
    let r := processEntries rest
    if entryValid entry.run then (entry :: r.1, r.2)
    else (r.1, invalidEntryMsg :: r.2)

/-- C7 (amended): an entry whose run object is absent, whose key is absent or
empty, whose sources list is absent, or whose cache directory is absent or
empty in both casings, is reported with a diagnostic and skipped, while the
valid entries - including those with a present but empty sources list, which
the code does not reject - all proceed regardless of invalid siblings. -/
theorem processEntries_spec (entries : List ConfigEntry) :
    (processEntries entries).1 =
      entries.filter (fun e => entryValid e.run) ∧
    (processEntries entries).2.length =
      (entries.filter (fun e => !(entryValid e.run))).length ∧
    (∀ r, entryValid (some r) = true ↔
      (jsTruthyStr r.key = true ∧ r.sources.isSome = true ∧
        jsTruthyStr (jsOrStr r.cachedir r.cacheDir) = true)) ∧
    entryValid none = false := by
  refine ⟨?_, ?_, ?_, rfl⟩
  · induction entries with
    | nil => rfl
    | cons entry rest ih =>
      simp only [processEntries, List.filter_cons]
      cases hv : entryValid entry.run <;> simp [hv, ih]
  · induction entries with
    | nil => rfl
    | cons entry rest ih =>
      simp only [processEntries, List.filter_cons]
      cases hv : entryValid entry.run <;> simp [hv, ih]
  · intro r
    simp [entryValid, Bool.and_eq_true, and_assoc]

/-- Witness for C7 (amended): an entry missing its cache directory is skipped
with one diagnostic while its valid sibling proceeds. -/
theorem processEntries_spec_witness :
    processEntries
        [⟨some ⟨some "bad", some ["s"], none, none⟩⟩,
         ⟨some ⟨some "good", some ["s"], some "out", none⟩⟩] =
      ([⟨some ⟨some "good", some ["s"], some "out", none⟩⟩],
        [invalidEntryMsg]) := by
  have h := (processEntries_spec
    [⟨some ⟨some "bad", some ["s"], none, none⟩⟩,
     ⟨some ⟨some "good", some ["s"], some "out", none⟩⟩]).1
  decide

/-- Counterexample for C7 as stated: the entry with key k, an EMPTY sources
list and cache directory out passes the validation (an empty array is truthy
in JavaScript), so it is processed with no diagnostic - the claim says such
an entry is skipped with a diagnostic. -/
theorem processEntries_empty_sources_counterexample :
    processEntries [⟨some ⟨some "k", some [], some "out", none⟩⟩] =
      ([⟨some ⟨some "k", some [], some "out", none⟩⟩], []) := by
  decide

end CollectorCache
